import Mathlib

/-!
Verification of the d8-lint orchestration core against its specification.

This file gives a shallow embedding, in Lean 4, of the orchestration and
aggregation engine of the d8-lint static-analysis tool: the finding value type
and deduplicating finding set (Go package errors), the report formatter
ConvertToError, the module-discovery filesystem walk (getModulePaths in
pkg/manager/manager.go), the linter-registry resolution (getEnabledLinters),
the orchestrator loop (Manager.Run), and the render cache of the probes linter
(RunRender in pkg/linters/probes/controller.go).  Pure Go functions become Lean
functions; the filesystem is an explicit tree value; the process-wide render
cache becomes explicit state threaded through calls; the data race on that
cache is analysed over explicit interleavings of the atomic map operations.
External collaborators (the helm renderer, the YAML parser, the hash function,
the object store internals) enter as explicit inputs or as models taken from
the specification, marked as such.
-/

set_option linter.unusedVariables false

namespace D8Lint

/--
Finding value type, from the errors package (LintRuleError): one reported
violation.  Field order follows the Go struct: Text, ID, ObjectID, Value.
The Value field has Go type any and may be nil; it is modelled as an optional
string payload.
-/
structure LintRuleError where
  Text : String
  ID : String
  ObjectID : String
  Value : Option String
deriving DecidableEq

/--
EqualsTo compares ID, Text and ObjectID; the Value field is excluded from
equality, exactly as in the source.
-/
def LintRuleError.EqualsTo (l candidate : LintRuleError) : Bool :=
  l.ID == candidate.ID && l.Text == candidate.Text && l.ObjectID == candidate.ObjectID

/-- IsEmpty holds when ID, Text and ObjectID are all empty strings. -/
def LintRuleError.IsEmpty (l : LintRuleError) : Bool :=
  l.ID == "" && l.Text == "" && l.ObjectID == ""

/-- Finding Set, from the errors package (LintRuleErrorsList): an ordered list. -/
structure LintRuleErrorsList where
  data : List LintRuleError
deriving DecidableEq

/--
Add appends a finding unless it is empty or an equal finding (slices.ContainsFunc
with EqualsTo) is already stored.
-/
def LintRuleErrorsList.Add (l : LintRuleErrorsList) (e : LintRuleError) : LintRuleErrorsList :=
  if e.IsEmpty then l
  else if l.data.any e.EqualsTo then l
  else ⟨l.data ++ [e]⟩

/-- Merge appends all entries of the argument verbatim, with no deduplication. -/
def LintRuleErrorsList.Merge (l e : LintRuleErrorsList) : LintRuleErrorsList :=
  ⟨l.data ++ e.data⟩

/-- goFmtFlags are the flag characters the fmt package accepts after a percent sign. -/
def goFmtFlags : List Char := ['+', '-', ' ', '#', '0']

/--
scanPct models how fmt.Sprintf consumes one directive (the text after a percent
sign) when the operand list is empty: flags, then a width (a star consumes a
missing operand and prints a BADWIDTH marker), then an optional precision, then
the verb.  A verb with no operand left prints a MISSING marker, a double
percent prints a literal percent, and a format ending inside a directive
prints a NOVERB marker.  Returns the printed text and the unconsumed rest.
-/
def scanPct (l : List Char) : String × List Char :=
  let l1 := l.dropWhile (fun c => goFmtFlags.contains c)
  let wl2 : String × List Char :=
    match l1 with
    | '*' :: r => ("%!(BADWIDTH)", r)
    | _ => ("", l1.dropWhile Char.isDigit)
  let pl3 : String × List Char :=
    match wl2.2 with
    | '.' :: r =>
      match r with
      | '*' :: r2 => ("%!(BADPREC)", r2)
      | _ => ("", r.dropWhile Char.isDigit)
    | _ => ("", wl2.2)
  match pl3.2 with
  | [] => (wl2.1 ++ pl3.1 ++ "%!(NOVERB)", [])
  | c :: r =>
    if c = '%' then (wl2.1 ++ pl3.1 ++ "%", r)
    else (wl2.1 ++ pl3.1 ++ "%!" ++ String.singleton c ++ "(MISSING)", r)

/--
goSprintfNoArgsAux processes a format string with an empty operand list.  The
first argument is fuel; it is always called with fuel at least the length of
the character list, which suffices because every step consumes at least one
character, so the fuel-exhausted branch is never reached from goSprintfNoArgs.
-/
def goSprintfNoArgsAux : Nat → List Char → String
  | _, [] => ""
  | 0, _ => ""
  | n + 1, c :: rest =>
    if c = '%' then
      let p := scanPct rest
      p.1 ++ goSprintfNoArgsAux n p.2
    else
      String.singleton c ++ goSprintfNoArgsAux n rest

/--
goSprintfNoArgs models fmt.Sprintf applied to a format string with no operands,
which is what color.New(color.FgRed).SprintfFunc() does to the Text field of a
finding inside ConvertToError.
-/
def goSprintfNoArgs (format : String) : String :=
  goSprintfNoArgsAux format.data.length format.data

/-- emojiMonkey is the constant text produced by emoji.Sprintf on the monkey code. -/
def emojiMonkey : String := "🐒 "

/-- ansiHiBlue is the escape sequence opened by color.New(color.FgHiBlue). -/
def ansiHiBlue : String := "\x1b[94m"

/-- ansiRed is the escape sequence opened by color.New(color.FgRed). -/
def ansiRed : String := "\x1b[31m"

/-- ansiReset closes a colored span. -/
def ansiReset : String := "\x1b[0m"

/-- colorWrap surrounds already-formatted text with a color escape and the reset. -/
def colorWrap (code s : String) : String := code ++ s ++ ansiReset

/--
entryString renders one finding exactly as one iteration of the loop body of
ConvertToError does: the emoji, the blue rule id in square brackets, the
message line with the red-formatted Text, the object line, an optional Value
line (only when Value is present), and a trailing blank line.
-/
def entryString (e : LintRuleError) : String :=
  emojiMonkey ++ colorWrap ansiHiBlue ("[#" ++ e.ID ++ "]") ++
    "\n\tMessage\t- " ++ colorWrap ansiRed (goSprintfNoArgs e.Text) ++
    "\n\tObject\t- " ++ e.ObjectID ++ "\n" ++
    (match e.Value with
     | some v => "\tValue\t- " ++ v ++ "\n"
     | none => "") ++
    "\n"

/-- concatAll models the strings.Builder accumulating the loop output in order. -/
def concatAll : List String → String
  | [] => ""
  | s :: rest => s ++ concatAll rest

/--
ConvertToError returns none when the list is empty (the Go function returns a
nil error) and otherwise the full formatted report as a single value.
-/
def LintRuleErrorsList.ConvertToError (l : LintRuleErrorsList) : Option String :=
  if l.data.length = 0 then none
  else some (concatAll (l.data.map entryString))

/-- hasSub decides whether p occurs as a contiguous run inside s. -/
def hasSub : List Char → List Char → Bool
  | p, [] => p.isEmpty
  | p, c :: t => p.isPrefixOf (c :: t) || hasSub p t

/-- SubstrP states that the characters of p occur contiguously inside s. -/
def SubstrP (p s : String) : Prop :=
  ∃ a b : List Char, s.data = a ++ p.data ++ b

/-- hasPct decides whether a string mentions the percent character at all. -/
def hasPct (s : String) : Bool := s.data.contains '%'

/-- ChartConfigFilename is the module marker file name from pkg/manager/manager.go. -/
def ChartConfigFilename : String := "Chart.yaml"

/--
DirTree models one directory of the filesystem: the plain files directly inside
it and its named subdirectories.  filepath.Walk visits a directory and then
recursively its entries; a callback returning SkipDir on a directory prevents
descent into it, and non-directory entries that return nil contribute nothing.
-/
inductive DirTree where
  | node (files : List String) (subdirs : List (String × DirTree)) : DirTree

/-- DirTree.files projects the plain file names directly inside the directory. -/
def DirTree.files : DirTree → List String
  | .node fs _ => fs

/-- DirTree.subdirs projects the named subdirectories. -/
def DirTree.subdirs : DirTree → List (String × DirTree)
  | .node _ sd => sd

/-- DirTree.hasChartFile decides isExistsOnFilesystem(path, ChartConfigFilename). -/
def DirTree.hasChartFile (t : DirTree) : Bool := t.files.contains ChartConfigFilename

mutual
/--
walkDir embeds the filepath.Walk callback of getModulePaths from
pkg/manager/manager.go visiting the directory at path: the search root returns
nil and is descended into; every other directory is recorded when it directly
contains Chart.yaml and then returns filepath.SkipDir unconditionally, so it is
never descended into.  File entries return nil early and contribute nothing.
-/
def walkDir (root path : String) : DirTree → List String
  | .node files subs =>
    if path == root then walkSubs root path subs
    else if files.contains ChartConfigFilename then [path]
    else []

/-- walkSubs recurses over the entries of a directory the walk descends into. -/
def walkSubs (root base : String) : List (String × DirTree) → List String
  | [] => []
  | (name, t) :: rest => walkDir root (base ++ "/" ++ name) t ++ walkSubs root base rest
end

/--
getModulePaths returns the module roots discovered under modulesDir, as in
pkg/manager/manager.go.  The error path of the walk (file access failures) is
not modelled: the tree argument is an already-readable filesystem.
-/
def getModulePaths (modulesDir : String) (t : DirTree) : List String :=
  walkDir modulesDir modulesDir t

/--
Manager bundles the resolved linter list, the module list, and the Run method
the linters implement behind the Linter interface.  The Go method Linter.Run
returns a pair of a finding list and an error; runLinter is that method.
-/
structure Manager (L M : Type) where
  Linters : List L
  Modules : List M
  runLinter : L → M → LintRuleErrorsList × Option String

/--
pairContribution is what one (linter, module) task contributes to the aggregate
finding set: nothing when Run returned an execution error (the error is logged
with WarnF and the errgroup keeps running the remaining tasks, its Wait result
being discarded), and the returned findings when the ConvertToError guard sees
a non-empty list.
-/
def pairContribution {L M : Type} (mgr : Manager L M) (l : L) (m : M) : List LintRuleError :=
  match (mgr.runLinter l m).2 with
  | some _ => []
  | none =>
    if ((mgr.runLinter l m).1.ConvertToError).isSome then (mgr.runLinter l m).1.data
    else []

/--
Manager.Run embeds the orchestrator loop of pkg/manager/manager.go: the outer
loop ranges over linters, the inner errgroup fans out over modules, every task
runs to completion (the zero-value errgroup does not cancel the others on a
task error, and the Wait result is discarded), and each non-empty finding list
is merged into the aggregate under the mutex.  The mutex serializes merges;
this embedding performs them in loop order, fixing one admissible merge order.
-/
def Manager.Run {L M : Type} (mgr : Manager L M) : LintRuleErrorsList :=
  mgr.Linters.foldl (fun result l =>
    mgr.Modules.foldl (fun result m =>
      match mgr.runLinter l m with
      | (errs, some _) => result
      | (errs, none) =>
        if (errs.ConvertToError).isSome then result.Merge errs else result)
      result)
    ⟨[]⟩

/-- mapLookup models a Go map read m[k]; a missing key yields the zero value (nil). -/
def mapLookup {L : Type} (m : List (String × L)) (k : String) : Option L :=
  (m.find? (fun p => p.1 == k)).map (fun p => p.2)

/-- mapInsert models a Go map write m[k] = v. -/
def mapInsert {L : Type} (m : List (String × L)) (k : String) (v : L) : List (String × L) :=
  if (m.find? (fun p => p.1 == k)).isSome then
    m.map (fun p => if p.1 == k then (k, v) else p)
  else m ++ [(k, v)]

/-- mapDelete models the Go builtin delete(m, k). -/
def mapDelete {L : Type} (m : List (String × L)) (k : String) : List (String × L) :=
  m.filter (fun p => p.1 != k)

/-- goToLower models strings.ToLower on the ASCII linter names. -/
def goToLower (s : String) : String := ⟨s.data.map Char.toLower⟩

/--
getEnabledLinters embeds the registry resolution of pkg/manager/manager.go:
with DisableAll the working set starts empty, otherwise (EnableAll or default)
from the full catalog; each name of the enable list is lowered and added when
the catalog knows it; each name of the disable list is looked up in the catalog
as written, without lowering, and deleted from the working set when found.  The
Go result is built by iterating the working-set map, so only its key-value
content is significant, never its order.
-/
def getEnabledLinters {L : Type} (lintersMap : List (String × L))
    (disableAll enableAll : Bool) (enable disable : List String) : List (String × L) :=
  let base := if disableAll then [] else lintersMap
  let afterEnable := enable.foldl (fun s name =>
    let lowered := goToLower name
    match mapLookup lintersMap lowered with
    | none => s
    | some l => mapInsert s lowered l) base
  disable.foldl (fun s name =>
    match mapLookup lintersMap name with
    | none => s
    | some _ => mapDelete s name) afterEnable

/-- LinterId enumerates the four linters NewManager installs in the catalog. -/
inductive LinterId where
  | openapi | noCyrillic | copyright | probes
deriving DecidableEq

/--
Modelled from the spec: the Name() methods of the individual linters are not
under src/ (the rule-checker bodies are out-of-scope collaborators there); the
spec names the license-header checker copyright in its registry-resolution
example, and its catalog holds the openapi, no-cyrillic, copyright and probes
checkers.
-/
def linterName : LinterId → String
  | .openapi => "openapi"
  | .noCyrillic => "no-cyrillic"
  | .copyright => "copyright"
  | .probes => "probes"

/-- lintersMapD8 is the catalog NewManager builds: keys are the lowered names. -/
def lintersMapD8 : List (String × LinterId) :=
  [LinterId.openapi, LinterId.noCyrillic, LinterId.copyright, LinterId.probes].map
    (fun l => (goToLower (linterName l), l))

/-- mapKeys projects the key set of a modelled Go map. -/
def mapKeys {L : Type} (m : List (String × L)) : List String := m.map (fun p => p.1)

/--
mgrC1 is the fault-isolation scenario of §8 of the spec: two linters and two
modules, with the probes linter instrumented to fail on modA with an execution
error while every other (linter, module) pair returns one finding.
-/
def mgrC1 : Manager String String where
  Linters := ["copyright", "probes"]
  Modules := ["modA", "modB"]
  runLinter := fun l m =>
    if l == "probes" && m == "modA" then (⟨[]⟩, some "instrumented failure")
    else (⟨[⟨"finding", l, m, none⟩]⟩, none)

/--
DocOutcome is the outcome of scanning and parsing one YAML chunk of the
rendered output inside RunRender: the parser (an external collaborator) fails
with a message, or yields an empty document (skipped by the loop), or yields an
object together with its object-store key.
-/
inductive DocOutcome (K : Type) where
  | parseErr (msg : String)
  | empty
  | object (key : K)

/--
Modelled from the spec: storage.UnstructuredObjectStore is not under src/; per
§4.2 of the spec, Put indexes the document and fails with a duplicate-object
error exactly when an equivalent key is already present.  The store is the list
of keys put so far, in insertion order.
-/
def storePut {K : Type} [DecidableEq K] (store : List K) (k : K) : Option (List K) :=
  if k ∈ store then none else some (store ++ [k])

/--
processDocs embeds the document loop of RunRender: each chunk is unmarshalled
(a parse failure returns the manifest error), empty documents are skipped, and
every object is Put into the object store (a duplicate returns the
already-exists error).  Returns the store reached, keeping documents stored
before a failure, and the error if any.
-/
def processDocs {K : Type} [DecidableEq K] :
    List (DocOutcome K) → List K → List K × Option String
  | [], store => (store, none)
  | d :: rest, store =>
    match d with
    | .parseErr msg => (store, some ("manifest unmarshal: " ++ msg))
    | .empty => processDocs rest store
    | .object k =>
      match storePut store k with
      | none => (store, some "helm chart object already exists")
      | some store2 => processDocs rest store2

/--
RunRender embeds pkg/linters/probes/controller.go.  The helm renderer and the
hash function are external collaborators; their combined outcome is the first
argument: either a render or hash failure with its message (both share the
helm-chart-render error text in the source), or the content hash of the
rendered files together with the parsed chunks in scan order.  The state is the
process-wide renderedTemplatesHash key set (seen) and the per-module object
store.  When the hash is already present the function returns nil immediately
and touches nothing; otherwise the deferred Store marks the hash on every
return path, including the parse-failure and duplicate-object returns.  Result:
the new seen set, the new store, and the lint error if any.
-/
def RunRender {K : Type} [DecidableEq K]
    (rendered : Except String (Nat × List (DocOutcome K)))
    (seen : List Nat) (store : List K) : List Nat × List K × Option String :=
  match rendered with
  | .error msg => (seen, store, some ("helm chart render: " ++ msg))
  | .ok (hash, docs) =>
    if hash ∈ seen then (seen, store, none)
    else
      let ps := processDocs docs store
      (hash :: seen, ps.1, ps.2)

/--
RaceState models the shared renderedTemplatesHash sync.Map restricted to one
content hash (seen: whether that hash is present), together with the program
counter and the Load observation of each of two concurrent RunRender callers
presenting that same hash.  Caller program: the first step performs the
sync.Map Load, observing whether the hash is present, and the caller finishes
immediately on already-seen; the second step performs the deferred sync.Map
Store.  Each individual map operation is atomic; the pair is not guarded as one
unit in the source.
-/
structure RaceState where
  seen : Bool
  pc0 : Nat
  pc1 : Nat
  obs0 : Option Bool
  obs1 : Option Bool
deriving DecidableEq

/-- rcInit is the state before either caller runs, the hash not yet present. -/
def rcInit : RaceState := ⟨false, 0, 0, none, none⟩

/-- rcStep0 runs the next atomic step of caller zero; a finished caller stutters. -/
def rcStep0 (s : RaceState) : RaceState :=
  if s.pc0 = 0 then
    { s with obs0 := some s.seen, pc0 := if s.seen then 2 else 1 }
  else if s.pc0 = 1 then
    { s with seen := true, pc0 := 2 }
  else s

/-- rcStep1 runs the next atomic step of caller one; a finished caller stutters. -/
def rcStep1 (s : RaceState) : RaceState :=
  if s.pc1 = 0 then
    { s with obs1 := some s.seen, pc1 := if s.seen then 2 else 1 }
  else if s.pc1 = 1 then
    { s with seen := true, pc1 := 2 }
  else s

/-- rcStep dispatches one scheduled atomic step to the chosen caller. -/
def rcStep (s : RaceState) (i : Fin 2) : RaceState :=
  if i = 0 then rcStep0 s else rcStep1 s

/-- rcRun executes a whole schedule of atomic steps from the initial state. -/
def rcRun (sched : List (Fin 2)) : RaceState :=
  sched.foldl rcStep rcInit

/--
Ilv xs ys zs states that zs is an interleaving of xs and ys that preserves the
internal order of each: the admissible schedules of two concurrent callers are
exactly the interleavings of their per-caller step sequences.
-/
inductive Ilv : List (Fin 2) → List (Fin 2) → List (Fin 2) → Prop where
  | nil : Ilv [] [] []
  | left {x xs ys zs} : Ilv xs ys zs → Ilv (x :: xs) ys (x :: zs)
  | right {y xs ys zs} : Ilv xs ys zs → Ilv xs (y :: ys) (y :: zs)

/-- firstSeen states that a Load observation reported the hash as not yet present. -/
def firstSeen (o : Option Bool) : Prop := o = some false

/-- Claim C3: Add leaves the set unchanged on an empty finding or on a finding equal
(by the Value-ignoring equality EqualsTo) to a stored one; adding two findings that
agree on RuleID, Message and ObjectRef but may differ in Value yields exactly one
stored entry. -/
theorem claim_c3 (s : LintRuleErrorsList) (f a b : LintRuleError)
    (hab : a.EqualsTo b = true) (ha : a.IsEmpty = false) :
    (f.IsEmpty = true → s.Add f = s) ∧
    (s.data.any f.EqualsTo = true → s.Add f = s) ∧
    (((LintRuleErrorsList.mk []).Add a |>.Add b).data = [a]) := by
  refine ⟨fun hf => ?_, fun hc => ?_, ?_⟩
  · simp [LintRuleErrorsList.Add, hf]
  · simp [LintRuleErrorsList.Add, hc]
  · have h1 : (LintRuleErrorsList.mk []).Add a = ⟨[a]⟩ := by
      simp [LintRuleErrorsList.Add, ha]
    rw [h1]
    have hba : b.EqualsTo a = true := by
      unfold LintRuleError.EqualsTo at hab ⊢
      simp only [Bool.and_eq_true, beq_iff_eq] at hab ⊢
      exact ⟨⟨hab.1.1.symm, hab.1.2.symm⟩, hab.2.symm⟩
    have hcontains : ([a] : List LintRuleError).any b.EqualsTo = true := by
      simp [hba]
    by_cases hb : b.IsEmpty = true
    · simp [LintRuleErrorsList.Add, hb]
    · simp [LintRuleErrorsList.Add, hb, hcontains]

/-- Witness for claim C3 at two concrete findings that differ only in Value. -/
theorem claim_c3_witness :
    ((⟨"dup message", "rule1", "obj1", none⟩ : LintRuleError).EqualsTo
        ⟨"dup message", "rule1", "obj1", some "v2"⟩ = true) ∧
    ((⟨"dup message", "rule1", "obj1", none⟩ : LintRuleError).IsEmpty = false) ∧
    ((((LintRuleErrorsList.mk []).Add ⟨"dup message", "rule1", "obj1", none⟩).Add
        ⟨"dup message", "rule1", "obj1", some "v2"⟩).data =
      [⟨"dup message", "rule1", "obj1", none⟩]) :=
  ⟨by decide, by decide,
    (claim_c3 ⟨[]⟩ ⟨"", "", "", none⟩ ⟨"dup message", "rule1", "obj1", none⟩
      ⟨"dup message", "rule1", "obj1", some "v2"⟩ (by decide) (by decide)).2.2⟩

/-- Claim C4: Merge appends the argument entries verbatim, with no deduplication
against the receiver, and merging A then B then C into an empty set yields the
concatenation A ++ B ++ C in order. -/
theorem claim_c4 (A B C : LintRuleErrorsList) :
    (∀ l e : LintRuleErrorsList, (l.Merge e).data = l.data ++ e.data) ∧
    ((((LintRuleErrorsList.mk []).Merge A).Merge B).Merge C).data =
      A.data ++ B.data ++ C.data := by
  constructor
  · intro l e; rfl
  · simp [LintRuleErrorsList.Merge]

/-- Helper: a path extended by a slash and a child name is never the path itself. -/
theorem append_child_ne (root name : String) : root ++ "/" ++ name ≠ root := by
  intro h
  have hl := congrArg String.length h
  rw [String.length_append, String.length_append] at hl
  have h1 : ("/" : String).length = 1 := rfl
  rw [h1] at hl
  omega

/-- Helper: the walk over the entries of the search root records exactly the
immediate subdirectories that carry the marker, and descends into none of them. -/
theorem walkSubs_root_eq (root : String) (subs : List (String × DirTree)) :
    walkSubs root root subs =
      (subs.filter (fun p => p.2.hasChartFile)).map (fun p => root ++ "/" ++ p.1) := by
  induction subs with
  | nil => simp [walkSubs]
  | cons hd tl ih =>
    obtain ⟨name, t⟩ := hd
    cases t with
    | node f s =>
      have hne : ((root ++ "/" ++ name) == root) = false := by
        rw [beq_eq_false_iff_ne]
        exact append_child_ne root name
      by_cases hc : ChartConfigFilename ∈ f
      · simp [walkSubs, walkDir, hne, hc, DirTree.hasChartFile, DirTree.files,
          List.filter_cons, ih]
      · simp [walkSubs, walkDir, hne, hc, DirTree.hasChartFile, DirTree.files,
          List.filter_cons, ih]

/-- Helper: closed form of getModulePaths from pkg/manager/manager.go. -/
theorem getModulePaths_eq (root : String) (files : List String)
    (subs : List (String × DirTree)) :
    getModulePaths root (.node files subs) =
      (subs.filter (fun p => p.2.hasChartFile)).map (fun p => root ++ "/" ++ p.1) := by
  unfold getModulePaths
  simp only [walkDir, beq_self_eq_true, if_true]
  exact walkSubs_root_eq root subs

/-- Claim C5 counterexample: the first and only directory containing the marker in
this tree sits at depth two, under the marker-free directory root/pkg, and is not
recorded as a module root — discovery returns nothing — refuting the claim that
the first directory at any depth containing the marker is recorded: the callback
returns SkipDir for every non-root directory, so the walk never reaches depth
two. -/
theorem claim_c5_counterexample :
    "root/pkg/modB" ∉ getModulePaths "root"
      (.node [] [("pkg", .node ["README.md"] [("modB", .node ["Chart.yaml"] [])])]) ∧
    getModulePaths "root"
      (.node [] [("pkg", .node ["README.md"] [("modB", .node ["Chart.yaml"] [])])]) =
      [] := by
  decide

/-- Claim C5 as amended: module discovery records a directory the walk reaches that
contains the marker as a module root and does not descend further into that
subtree; since SkipDir cuts off every non-root directory, the reached directories
are exactly the first-level subdirectories of the search root — each of them is
recorded when and only when it carries the marker, and a first marker at depth
two or more is not recorded.  The concrete tree with root/modA/Chart.yaml and
root/modA/charts/nested/Chart.yaml yields exactly the single module root/modA:
the nested marker is not reached because the walk stops descending at modA. -/
theorem claim_c5 (root : String) (t : DirTree) (p : String)
    (hp : p ∈ getModulePaths root t) :
    (∃ name sub, (name, sub) ∈ t.subdirs ∧ sub.hasChartFile = true ∧
      p = root ++ "/" ++ name) ∧
    (∀ name sub, (name, sub) ∈ t.subdirs → sub.hasChartFile = true →
      root ++ "/" ++ name ∈ getModulePaths root t) ∧
    getModulePaths "root"
      (.node [] [("modA", .node ["Chart.yaml"]
        [("charts", .node [] [("nested", .node ["Chart.yaml"] [])])])]) =
      ["root/modA"] := by
  cases t with
  | node files subs =>
    rw [getModulePaths_eq] at hp
    refine ⟨?_, ?_, by decide⟩
    · obtain ⟨q, hq, hqe⟩ := List.mem_map.mp hp
      obtain ⟨hqs, hqc⟩ := List.mem_filter.mp hq
      exact ⟨q.1, q.2, hqs, hqc, hqe.symm⟩
    · intro name sub hmem hchart
      rw [getModulePaths_eq]
      exact List.mem_map.mpr ⟨(name, sub), List.mem_filter.mpr ⟨hmem, hchart⟩, rfl⟩

/-- Witness for claim C5 at the concrete two-marker tree of the specification. -/
theorem claim_c5_witness :
    ("root/modA" ∈ getModulePaths "root"
      (.node [] [("modA", .node ["Chart.yaml"]
        [("charts", .node [] [("nested", .node ["Chart.yaml"] [])])])])) ∧
    ((∃ name sub,
        (name, sub) ∈ (DirTree.node []
          [("modA", .node ["Chart.yaml"]
            [("charts", .node [] [("nested", .node ["Chart.yaml"] [])])])]).subdirs ∧
        sub.hasChartFile = true ∧ "root/modA" = "root" ++ "/" ++ name) ∧
      (∀ name sub,
        (name, sub) ∈ (DirTree.node []
          [("modA", .node ["Chart.yaml"]
            [("charts", .node [] [("nested", .node ["Chart.yaml"] [])])])]).subdirs →
        sub.hasChartFile = true →
        "root" ++ "/" ++ name ∈ getModulePaths "root"
          (.node [] [("modA", .node ["Chart.yaml"]
            [("charts", .node [] [("nested", .node ["Chart.yaml"] [])])])])) ∧
      getModulePaths "root"
        (.node [] [("modA", .node ["Chart.yaml"]
          [("charts", .node [] [("nested", .node ["Chart.yaml"] [])])])]) =
        ["root/modA"]) :=
  ⟨by decide,
    claim_c5 "root"
      (.node [] [("modA", .node ["Chart.yaml"]
        [("charts", .node [] [("nested", .node ["Chart.yaml"] [])])])])
      "root/modA" (by decide)⟩

/-- Claim C6 counterexample: the directory root/sub carries no marker, yet the walk
does not descend into it (the callback returns SkipDir for every non-root
directory), so the marker at root/sub/modA is never found: discovery of this tree
returns no module at all, refuting the claim that marker-free directories are
descended into normally. -/
theorem claim_c6_counterexample :
    getModulePaths "root"
      (.node [] [("sub", .node [] [("modA", .node ["Chart.yaml"] [])])]) = [] ∧
    "root/sub/modA" ∉ getModulePaths "root"
      (.node [] [("sub", .node [] [("modA", .node ["Chart.yaml"] [])])]) := by
  decide

/-- Claim C6 as amended: in src/pkg/manager/manager.go only the search root itself
is descended into; every other directory, with or without the marker, is cut off
by SkipDir, so discovery returns exactly the first-level subdirectories carrying
the marker and a marker deeper below a marker-free directory is not found.  (The
variant of getModulePaths in src/unnamed/part_000 descends everywhere instead.) -/
theorem claim_c6 (root : String) (files : List String)
    (subs : List (String × DirTree)) :
    getModulePaths root (.node files subs) =
      (subs.filter (fun p => p.2.hasChartFile)).map (fun p => root ++ "/" ++ p.1) :=
  getModulePaths_eq root files subs

/-- Claim C7: the search root is never classified as a module, even when the marker
file sits directly inside it; a root whose only marker is its own yields zero
modules. -/
theorem claim_c7 (root : String) (t : DirTree) :
    root ∉ getModulePaths root t ∧
    (∀ files : List String, getModulePaths root (.node files []) = []) := by
  constructor
  · cases t with
    | node files subs =>
      rw [getModulePaths_eq]
      intro hmem
      obtain ⟨q, hq, hqe⟩ := List.mem_map.mp hmem
      exact append_child_ne root q.1 hqe
  · intro files
    rw [getModulePaths_eq]
    rfl

/-- Witness for claim C7 at a root that directly contains the marker file. -/
theorem claim_c7_witness :
    "r" ∉ getModulePaths "r" (.node ["Chart.yaml"] []) ∧
    getModulePaths "r" (.node ["Chart.yaml"] []) = [] :=
  ⟨(claim_c7 "r" (.node ["Chart.yaml"] [])).1,
    (claim_c7 "r" (.node ["Chart.yaml"] [])).2 ["Chart.yaml"]⟩

/-- Helper: the inner errgroup fan-out over modules appends exactly the
contribution of each (linter, module) task to the accumulator. -/
theorem foldl_modules_data {L M : Type} (mgr : Manager L M) (l : L)
    (mods : List M) (acc : LintRuleErrorsList) :
    (mods.foldl (fun result m =>
      match mgr.runLinter l m with
      | (errs, some _) => result
      | (errs, none) =>
        if (errs.ConvertToError).isSome then result.Merge errs else result)
      acc).data =
      acc.data ++ mods.flatMap (fun m => pairContribution mgr l m) := by
  induction mods generalizing acc with
  | nil => simp
  | cons m rest ih =>
    rw [List.foldl_cons, List.flatMap_cons, ih]
    rcases hrun : mgr.runLinter l m with ⟨errs, err⟩
    cases err with
    | none =>
      by_cases hg : (errs.ConvertToError).isSome
      · simp [hrun, hg, pairContribution, LintRuleErrorsList.Merge]
      · simp [hrun, hg, pairContribution]
    | some e =>
      simp [hrun, pairContribution]

/-- Helper: closed form of the aggregate finding list built by Manager.Run. -/
theorem run_data_eq {L M : Type} (mgr : Manager L M) :
    (Manager.Run mgr).data =
      mgr.Linters.flatMap (fun l =>
        mgr.Modules.flatMap (fun m => pairContribution mgr l m)) := by
  unfold Manager.Run
  have haux : ∀ (ls : List L) (acc : LintRuleErrorsList),
      (ls.foldl (fun result l =>
        mgr.Modules.foldl (fun result m =>
          match mgr.runLinter l m with
          | (errs, some _) => result
          | (errs, none) =>
            if (errs.ConvertToError).isSome then result.Merge errs else result)
          result) acc).data =
        acc.data ++ ls.flatMap (fun l =>
          mgr.Modules.flatMap (fun m => pairContribution mgr l m)) := by
    intro ls
    induction ls with
    | nil => intro acc; simp
    | cons l rest ih =>
      intro acc
      rw [List.foldl_cons, List.flatMap_cons, ih, foldl_modules_data]
      simp
  rw [haux mgr.Linters ⟨[]⟩]
  rfl

/-- Claim C1: when one checker fails with an execution error on one module, every
finding returned by any other successfully completing (checker, module) pair still
reaches the aggregate finding set Manager.Run returns, and the aggregate is the
merge of the contributions of every pair of the full matrix: the run never
short-circuits on a failure. -/
theorem claim_c1 {L M : Type} (mgr : Manager L M) (l : L) (m : M)
    (hl : l ∈ mgr.Linters) (hm : m ∈ mgr.Modules)
    (s : LintRuleErrorsList) (hrun : mgr.runLinter l m = (s, none))
    (f : LintRuleError) (hf : f ∈ s.data) :
    f ∈ (Manager.Run mgr).data ∧
    (Manager.Run mgr).data =
      mgr.Linters.flatMap (fun l' =>
        mgr.Modules.flatMap (fun m' => pairContribution mgr l' m')) := by
  refine ⟨?_, run_data_eq mgr⟩
  rw [run_data_eq]
  refine List.mem_flatMap.mpr ⟨l, hl, List.mem_flatMap.mpr ⟨m, hm, ?_⟩⟩
  have hne : s.data ≠ [] := by
    intro h0
    rw [h0] at hf
    exact (List.not_mem_nil f) hf
  have hlen : s.data.length ≠ 0 := fun h0 => hne (List.length_eq_zero.mp h0)
  have hg : (s.ConvertToError).isSome := by
    simp [LintRuleErrorsList.ConvertToError, hlen]
  simp [pairContribution, hrun, hg, hf]

/-- Witness for claim C1 on the instrumented scenario: the probes checker fails on
modA with an execution error, and the finding the copyright checker reports for
modB still appears in the aggregate. -/
theorem claim_c1_witness :
    ("copyright" ∈ mgrC1.Linters) ∧ ("modB" ∈ mgrC1.Modules) ∧
    (mgrC1.runLinter "copyright" "modB" =
      (⟨[⟨"finding", "copyright", "modB", none⟩]⟩, none)) ∧
    ((⟨"finding", "copyright", "modB", none⟩ : LintRuleError) ∈ (Manager.Run mgrC1).data) ∧
    ((Manager.Run mgrC1).data =
      mgrC1.Linters.flatMap (fun l' =>
        mgrC1.Modules.flatMap (fun m' => pairContribution mgrC1 l' m'))) :=
  ⟨by decide, by decide, by decide,
    (claim_c1 mgrC1 "copyright" "modB" (by decide) (by decide)
      ⟨[⟨"finding", "copyright", "modB", none⟩]⟩ (by decide)
      ⟨"finding", "copyright", "modB", none⟩ (by decide)).1,
    (claim_c1 mgrC1 "copyright" "modB" (by decide) (by decide)
      ⟨[⟨"finding", "copyright", "modB", none⟩]⟩ (by decide)
      ⟨"finding", "copyright", "modB", none⟩ (by decide)).2⟩

/-- Helper: key membership after a Go map write. -/
theorem mapKeys_mapInsert {L : Type} (m : List (String × L)) (k : String) (v : L)
    (k' : String) :
    k' ∈ mapKeys (mapInsert m k v) ↔ k' ∈ mapKeys m ∨ k' = k := by
  unfold mapInsert
  by_cases hf : (m.find? (fun p => p.1 == k)).isSome
  · simp only [hf, if_true]
    have hkeys : mapKeys (m.map (fun p => if p.1 == k then (k, v) else p)) = mapKeys m := by
      unfold mapKeys
      rw [List.map_map]
      refine List.map_congr_left (fun p hp => ?_)
      by_cases hp1 : p.1 == k
      · simp only [Function.comp, hp1, if_true]
        exact (beq_iff_eq.mp hp1).symm
      · simp [Function.comp, hp1]
    rw [hkeys]
    constructor
    · exact Or.inl
    · rintro (h | rfl)
      · exact h
      · rw [List.find?_isSome] at hf
        obtain ⟨p, hp, hpk⟩ := hf
        exact List.mem_map.mpr ⟨p, hp, beq_iff_eq.mp hpk⟩
  · rw [if_neg hf]
    unfold mapKeys
    rw [List.map_append]
    simp

/-- Helper: key membership after the Go builtin delete. -/
theorem mapKeys_mapDelete {L : Type} (m : List (String × L)) (k k' : String) :
    k' ∈ mapKeys (mapDelete m k) ↔ k' ∈ mapKeys m ∧ k' ≠ k := by
  unfold mapDelete mapKeys
  constructor
  · intro h
    obtain ⟨p, hp, hpk⟩ := List.mem_map.mp h
    obtain ⟨hpm, hpne⟩ := List.mem_filter.mp hp
    refine ⟨List.mem_map.mpr ⟨p, hpm, hpk⟩, ?_⟩
    rw [← hpk]
    exact bne_iff_ne.mp hpne
  · rintro ⟨h, hne⟩
    obtain ⟨p, hp, hpk⟩ := List.mem_map.mp h
    refine List.mem_map.mpr ⟨p, List.mem_filter.mpr ⟨hp, ?_⟩, hpk⟩
    rw [bne_iff_ne, hpk]
    exact hne

/-- Helper: the enable-list fold adds exactly the lowered names the catalog knows. -/
theorem keys_enable_fold {L : Type} (lintersMap : List (String × L))
    (enable : List String) (base : List (String × L)) (k : String) :
    (k ∈ mapKeys (enable.foldl (fun s name =>
      match mapLookup lintersMap (goToLower name) with
      | none => s
      | some l => mapInsert s (goToLower name) l) base)) ↔
      (k ∈ mapKeys base ∨
        (∃ n ∈ enable, goToLower n = k ∧ (mapLookup lintersMap k).isSome)) := by
  induction enable generalizing base with
  | nil => simp
  | cons n rest ih =>
    rw [List.foldl_cons]
    cases hlook : mapLookup lintersMap (goToLower n) with
    | none =>
      simp only [hlook]
      rw [ih]
      constructor
      · rintro (h | ⟨n', hn', hk, hs⟩)
        · exact Or.inl h
        · exact Or.inr ⟨n', List.mem_cons_of_mem n hn', hk, hs⟩
      · rintro (h | ⟨n', hn', hk, hs⟩)
        · exact Or.inl h
        · rcases List.mem_cons.mp hn' with rfl | hn'
          · rw [hk] at hlook
            rw [hlook] at hs
            exact absurd hs (by simp)
          · exact Or.inr ⟨n', hn', hk, hs⟩
    | some l =>
      simp only [hlook]
      rw [ih, mapKeys_mapInsert]
      constructor
      · rintro ((h | heq) | ⟨n', hn', hk, hs⟩)
        · exact Or.inl h
        · exact Or.inr ⟨n, List.mem_cons_self n rest, heq.symm, by rw [heq, hlook]; rfl⟩
        · exact Or.inr ⟨n', List.mem_cons_of_mem n hn', hk, hs⟩
      · rintro (h | ⟨n', hn', hk, hs⟩)
        · exact Or.inl (Or.inl h)
        · rcases List.mem_cons.mp hn' with rfl | hn'
          · exact Or.inl (Or.inr hk.symm)
          · exact Or.inr ⟨n', hn', hk, hs⟩

/-- Helper: the disable-list fold removes exactly the names the catalog knows as
written, without case normalization. -/
theorem keys_disable_fold {L : Type} (lintersMap : List (String × L))
    (disable : List String) (s0 : List (String × L)) (k : String) :
    (k ∈ mapKeys (disable.foldl (fun s name =>
      match mapLookup lintersMap name with
      | none => s
      | some _ => mapDelete s name) s0)) ↔
      (k ∈ mapKeys s0 ∧ ¬(k ∈ disable ∧ (mapLookup lintersMap k).isSome)) := by
  induction disable generalizing s0 with
  | nil => simp
  | cons n rest ih =>
    rw [List.foldl_cons]
    cases hlook : mapLookup lintersMap n with
    | none =>
      simp only [hlook]
      rw [ih]
      constructor
      · rintro ⟨h, hn⟩
        refine ⟨h, ?_⟩
        rintro ⟨hmem, hs⟩
        rcases List.mem_cons.mp hmem with rfl | hmem
        · rw [hlook] at hs
          exact absurd hs (by simp)
        · exact hn ⟨hmem, hs⟩
      · rintro ⟨h, hn⟩
        exact ⟨h, fun hc => hn ⟨List.mem_cons_of_mem n hc.1, hc.2⟩⟩
    | some l =>
      simp only [hlook]
      rw [ih, mapKeys_mapDelete]
      constructor
      · rintro ⟨⟨h, hne⟩, hn⟩
        refine ⟨h, ?_⟩
        rintro ⟨hmem, hs⟩
        rcases List.mem_cons.mp hmem with rfl | hmem
        · exact hne rfl
        · exact hn ⟨hmem, hs⟩
      · rintro ⟨h, hn⟩
        refine ⟨⟨h, ?_⟩, fun hc => hn ⟨List.mem_cons_of_mem n hc.1, hc.2⟩⟩
        rintro rfl
        exact hn ⟨List.mem_cons_self _ _, by rw [hlook]; rfl⟩

/-- Claim C8: with disableAll the working set starts empty; a key is enabled exactly
when some enable-list name lowers to it and the catalog knows it, and no
disable-list entry names it; in particular disableAll with enable copyright yields
exactly the copyright checker. -/
theorem claim_c8 :
    (∀ (enable disable : List String) (k : String),
      (k ∈ mapKeys (getEnabledLinters lintersMapD8 true false enable disable)) ↔
        ((mapLookup lintersMapD8 k).isSome ∧ (∃ n ∈ enable, goToLower n = k) ∧
          k ∉ disable)) ∧
    getEnabledLinters lintersMapD8 true false ["copyright"] [] =
      [("copyright", LinterId.copyright)] := by
  constructor
  · intro enable disable k
    simp only [getEnabledLinters, if_true]
    rw [keys_disable_fold, keys_enable_fold]
    constructor
    · rintro ⟨(h0 | ⟨n, hn, hk, hs⟩), hnd⟩
      · simp [mapKeys] at h0
      · exact ⟨hs, ⟨n, hn, hk⟩, fun hd => hnd ⟨hd, hs⟩⟩
    · rintro ⟨hs, ⟨n, hn, hk⟩, hnd⟩
      exact ⟨Or.inr ⟨n, hn, hk, hs⟩, fun hc => hnd hc.1⟩
  · decide

/-- Helper: executable check of the list being an initial run of another. -/
theorem isPrefixOf_iff (p l : List Char) :
    p.isPrefixOf l = true ↔ ∃ r, l = p ++ r := by
  induction p generalizing l with
  | nil => cases l <;> simp [List.isPrefixOf]
  | cons a as ih =>
    cases l with
    | nil => simp [List.isPrefixOf]
    | cons b bs =>
      simp only [List.isPrefixOf, Bool.and_eq_true, beq_iff_eq, ih]
      constructor
      · rintro ⟨rfl, r, rfl⟩
        exact ⟨r, rfl⟩
      · rintro ⟨r, hr⟩
        injection hr with h1 h2
        exact ⟨h1.symm, r, h2⟩

/-- Helper: the executable hasSub agrees with the contiguous-run property. -/
theorem hasSub_iff (p l : List Char) :
    hasSub p l = true ↔ ∃ a b, l = a ++ p ++ b := by
  induction l with
  | nil =>
    simp only [hasSub, List.isEmpty_iff]
    constructor
    · intro h
      exact ⟨[], [], by simp [h]⟩
    · rintro ⟨a, b, hab⟩
      have h1 := List.append_eq_nil.mp hab.symm
      have h2 := List.append_eq_nil.mp h1.1
      exact h2.2
  | cons c t ih =>
    simp only [hasSub, Bool.or_eq_true, ih, isPrefixOf_iff]
    constructor
    · rintro (⟨r, hr⟩ | ⟨a, b, hab⟩)
      · exact ⟨[], r, by simp [hr]⟩
      · exact ⟨c :: a, b, by simp [hab]⟩
    · rintro ⟨a, b, hab⟩
      cases a with
      | nil => exact Or.inl ⟨b, by simpa using hab⟩
      | cons a0 a2 =>
        injection hab with h1 h2
        exact Or.inr ⟨a2, b, h2⟩

/-- Helper: SubstrP coincides with the executable substring check. -/
theorem substrP_iff_hasSub (p s : String) :
    SubstrP p s ↔ hasSub p.data s.data = true := by
  unfold SubstrP
  exact (hasSub_iff p.data s.data).symm

/-- Helper: a string occurs inside itself. -/
theorem substrP_refl (p : String) : SubstrP p p := ⟨[], [], by simp⟩

/-- Helper: occurrence is preserved by gluing text on the left. -/
theorem substrP_append_right (x : String) {p s : String} (h : SubstrP p s) :
    SubstrP p (x ++ s) := by
  obtain ⟨a, b, hab⟩ := h
  exact ⟨x.data ++ a, b, by rw [String.data_append, hab]; simp⟩

/-- Helper: occurrence is preserved by gluing text on the right. -/
theorem substrP_append_left (x : String) {p s : String} (h : SubstrP p s) :
    SubstrP p (s ++ x) := by
  obtain ⟨a, b, hab⟩ := h
  exact ⟨a, b ++ x.data, by rw [String.data_append, hab]; simp⟩

/-- Helper: occurrence inside a part is occurrence inside the whole. -/
theorem substrP_trans {p s out : String} (h1 : SubstrP p s) (h2 : SubstrP s out) :
    SubstrP p out := by
  obtain ⟨a, b, hab⟩ := h1
  obtain ⟨c, d, hcd⟩ := h2
  refine ⟨c ++ a, b ++ d, ?_⟩
  rw [hcd, hab]
  simp

/-- Helper: every member of a string list occurs inside the full concatenation. -/
theorem substrP_concatAll {s : String} {l : List String} (hs : s ∈ l) :
    SubstrP s (concatAll l) := by
  induction l with
  | nil => exact absurd hs (List.not_mem_nil s)
  | cons t rest ih =>
    rcases List.mem_cons.mp hs with rfl | hs2
    · exact substrP_append_left _ (substrP_refl s)
    · exact substrP_append_right t (ih hs2)

/-- Helper: the no-operand formatter copies every directive-free format verbatim. -/
theorem goSprintfNoArgsAux_no_pct (n : Nat) (l : List Char) (hn : l.length ≤ n)
    (h : ∀ c ∈ l, c ≠ '%') : (goSprintfNoArgsAux n l).data = l := by
  induction n generalizing l with
  | zero =>
    cases l with
    | nil => rfl
    | cons c t =>
      rw [List.length_cons] at hn
      omega
  | succ n ih =>
    cases l with
    | nil => rfl
    | cons c t =>
      have hc : c ≠ '%' := h c (List.mem_cons_self c t)
      have htn : t.length ≤ n := by
        rw [List.length_cons] at hn
        omega
      simp only [goSprintfNoArgsAux, if_neg hc]
      rw [String.data_append]
      rw [show (String.singleton c).data = [c] from rfl]
      rw [ih t htn (fun x hx => h x (List.mem_cons_of_mem c hx))]
      rfl

/-- Helper: a Text with no percent character passes through the red formatter
verbatim. -/
theorem goSprintfNoArgs_of_no_pct (s : String) (h : hasPct s = false) :
    goSprintfNoArgs s = s := by
  have hmem : ∀ c ∈ s.data, c ≠ '%' := by
    intro c hc heq
    rw [heq] at hc
    have helem : s.data.elem '%' = true := List.elem_iff.mpr hc
    unfold hasPct at h
    rw [List.contains] at h
    rw [helem] at h
    exact Bool.true_eq_false.mp h
  exact String.ext (goSprintfNoArgsAux_no_pct s.data.length s.data le_rfl hmem)

/-- Claim C9 as amended: ConvertToError returns none exactly on the empty set; on a
non-empty set it returns one value in which every entry contributes its RuleID and
ObjectRef verbatim as substrings, its Message as transformed by the red color
formatter (verbatim whenever the Message contains no percent character, which the
formatter would re-read as a format directive), and a Value line exactly for
entries whose Value is present. -/
theorem claim_c9 (l : LintRuleErrorsList) (e : LintRuleError) (he : e ∈ l.data)
    (hne : l.data ≠ []) :
    (∀ l0 : LintRuleErrorsList, l0.data = [] → l0.ConvertToError = none) ∧
    (∃ out, l.ConvertToError = some out ∧
      SubstrP e.ID out ∧
      SubstrP e.ObjectID out ∧
      (hasPct e.Text = false → SubstrP e.Text out) ∧
      (∀ v, e.Value = some v → SubstrP ("\tValue\t- " ++ v ++ "\n") out) ∧
      (e.Value = none → (entryString e).data =
        (emojiMonkey ++ colorWrap ansiHiBlue ("[#" ++ e.ID ++ "]") ++
          "\n\tMessage\t- " ++ colorWrap ansiRed (goSprintfNoArgs e.Text) ++
          "\n\tObject\t- " ++ e.ObjectID ++ "\n" ++ "\n").data)) := by
  constructor
  · intro l0 h0
    simp [LintRuleErrorsList.ConvertToError, h0]
  · have hlen : l.data.length ≠ 0 := fun h0 => hne (List.length_eq_zero.mp h0)
    have hentry : SubstrP (entryString e) (concatAll (l.data.map entryString)) :=
      substrP_concatAll (List.mem_map_of_mem entryString he)
    refine ⟨concatAll (l.data.map entryString),
      by simp [LintRuleErrorsList.ConvertToError, hlen], ?_, ?_, ?_, ?_, ?_⟩
    · refine substrP_trans ?_ hentry
      show SubstrP e.ID (entryString e)
      unfold entryString colorWrap
      exact substrP_append_left _ (substrP_append_left _ (substrP_append_left _
        (substrP_append_left _ (substrP_append_left _ (substrP_append_left _
          (substrP_append_left _ (substrP_append_right _ (substrP_append_left _
            (substrP_append_right _ (substrP_append_left _
              (substrP_append_right _ (substrP_refl _))))))))))))
    · refine substrP_trans ?_ hentry
      show SubstrP e.ObjectID (entryString e)
      unfold entryString colorWrap
      exact substrP_append_left _ (substrP_append_left _ (substrP_append_left _
        (substrP_append_right _ (substrP_refl _))))
    · intro hp
      refine substrP_trans ?_ hentry
      show SubstrP e.Text (entryString e)
      unfold entryString colorWrap
      rw [goSprintfNoArgs_of_no_pct e.Text hp]
      exact substrP_append_left _ (substrP_append_left _ (substrP_append_left _
        (substrP_append_left _ (substrP_append_left _ (substrP_append_right _
          (substrP_append_left _ (substrP_append_right _ (substrP_refl _))))))))
    · intro v hv
      refine substrP_trans ?_ hentry
      show SubstrP ("\tValue\t- " ++ v ++ "\n") (entryString e)
      unfold entryString colorWrap
      rw [hv]
      exact substrP_append_left _ (substrP_append_right _ (substrP_refl _))
    · intro h0
      simp [entryString, h0, String.data_append]

/-- Claim C9 counterexample: a finding whose Message is a bare percent-d directive
is re-read by the red color formatter as a format verb with a missing operand, so
the report text does not contain the Message as a substring. -/
theorem claim_c9_counterexample :
    ∃ out,
      (LintRuleErrorsList.mk [⟨"%d", "r1", "obj", none⟩]).ConvertToError = some out ∧
      ¬ SubstrP "%d" out := by
  refine ⟨concatAll ([(⟨"%d", "r1", "obj", none⟩ : LintRuleError)].map entryString),
    rfl, ?_⟩
  intro hsub
  rw [substrP_iff_hasSub] at hsub
  exact absurd hsub (by decide)

/-- Witness for claim C9 at a singleton set whose finding carries a plain message
and a present Value. -/
theorem claim_c9_witness :
    ((⟨"plain message", "r2", "obj2", some "v9"⟩ : LintRuleError) ∈
      (LintRuleErrorsList.mk [⟨"plain message", "r2", "obj2", some "v9"⟩]).data) ∧
    ((LintRuleErrorsList.mk [⟨"plain message", "r2", "obj2", some "v9"⟩]).data ≠ []) ∧
    ((∀ l0 : LintRuleErrorsList, l0.data = [] → l0.ConvertToError = none) ∧
      (∃ out,
        (LintRuleErrorsList.mk
          [⟨"plain message", "r2", "obj2", some "v9"⟩]).ConvertToError = some out ∧
        SubstrP "r2" out ∧
        SubstrP "obj2" out ∧
        (hasPct "plain message" = false → SubstrP "plain message" out) ∧
        (∀ v, (some "v9" : Option String) = some v →
          SubstrP ("\tValue\t- " ++ v ++ "\n") out) ∧
        ((some "v9" : Option String) = none →
          (entryString ⟨"plain message", "r2", "obj2", some "v9"⟩).data =
            (emojiMonkey ++ colorWrap ansiHiBlue ("[#" ++ "r2" ++ "]") ++
              "\n\tMessage\t- " ++
                colorWrap ansiRed (goSprintfNoArgs "plain message") ++
              "\n\tObject\t- " ++ "obj2" ++ "\n" ++ "\n").data))) :=
  ⟨by decide, by decide,
    claim_c9 (LintRuleErrorsList.mk [⟨"plain message", "r2", "obj2", some "v9"⟩])
      ⟨"plain message", "r2", "obj2", some "v9"⟩ (by decide) (by decide)⟩

/-- Claim C2 counterexample: in the interleaving where both callers perform the
sync.Map Load before either performs the deferred Store, both observe first-seen,
so it is false that exactly one of two concurrent callers with the same content
hash observes first-seen: the check and the mark are two separate atomic steps,
not one atomic unit. -/
theorem claim_c2_counterexample :
    Ilv [0, 0] [1, 1] [0, 1, 0, 1] ∧
    firstSeen (rcRun [0, 1, 0, 1]).obs0 ∧
    firstSeen (rcRun [0, 1, 0, 1]).obs1 ∧
    (rcRun [0, 1, 0, 1]).seen = true :=
  ⟨.left (.right (.left (.right .nil))), rfl, rfl, rfl⟩

/-- Claim C2 as amended: under every interleaving of the two callers with the same
hash, at least one observes first-seen and the hash is present once both have
finished; but not exactly one — the counterexample interleaving lets both observe
first-seen, because the Load and the deferred Store are separately atomic only. -/
theorem claim_c2 (sched : List (Fin 2)) (hs : Ilv [0, 0] [1, 1] sched) :
    (firstSeen (rcRun sched).obs0 ∨ firstSeen (rcRun sched).obs1) ∧
    (rcRun sched).seen = true := by
  cases hs with
  | left h1 =>
    cases h1 with
    | left h2 =>
      cases h2 with
      | right h3 =>
        cases h3 with
        | right h4 =>
          cases h4
          simp only [firstSeen]
          decide
    | right h2 =>
      cases h2 with
      | left h3 =>
        cases h3 with
        | right h4 =>
          cases h4
          simp only [firstSeen]
          decide
      | right h3 =>
        cases h3 with
        | left h4 =>
          cases h4
          simp only [firstSeen]
          decide
  | right h1 =>
    cases h1 with
    | left h2 =>
      cases h2 with
      | left h3 =>
        cases h3 with
        | right h4 =>
          cases h4
          simp only [firstSeen]
          decide
      | right h3 =>
        cases h3 with
        | left h4 =>
          cases h4
          simp only [firstSeen]
          decide
    | right h2 =>
      cases h2 with
      | left h3 =>
        cases h3 with
        | left h4 =>
          cases h4
          simp only [firstSeen]
          decide

/-- Witness for claim C2 at the serial schedule: caller zero checks and marks, then
caller one checks. -/
theorem claim_c2_witness :
    Ilv [0, 0] [1, 1] [0, 0, 1, 1] ∧
    ((firstSeen (rcRun [0, 0, 1, 1]).obs0 ∨ firstSeen (rcRun [0, 0, 1, 1]).obs1) ∧
      (rcRun [0, 0, 1, 1]).seen = true) :=
  ⟨.left (.left (.right (.right .nil))),
    claim_c2 [0, 0, 1, 1] (.left (.left (.right (.right .nil))))⟩

/-- Claim C10: once RunRender has computed a hash not yet seen, the deferred Store
marks it on every return path, including the parse-failure and duplicate-object
returns; any later call whose rendered output hashes to the same value returns
nil immediately, stores no documents, and does not repeat the earlier error. -/
theorem claim_c10 {K : Type} [DecidableEq K] (h : Nat)
    (docs docs2 : List (DocOutcome K)) (seen : List Nat) (store store2 : List K)
    (hnew : h ∉ seen) :
    ((RunRender (.ok (h, docs)) seen store).1 = h :: seen) ∧
    (h ∈ (RunRender (.ok (h, docs)) seen store).1) ∧
    (RunRender (.ok (h, docs2)) ((RunRender (.ok (h, docs)) seen store).1) store2 =
      ((RunRender (.ok (h, docs)) seen store).1, store2, none)) := by
  have h1 : (RunRender (.ok (h, docs)) seen store).1 = h :: seen := by
    simp [RunRender, hnew]
  refine ⟨h1, by rw [h1]; exact List.mem_cons_self h seen, ?_⟩
  rw [h1]
  simp [RunRender]

/-- Witness for claim C10: the first call fails with a duplicate-object error, yet
the hash is marked and the second call with the same hash is a silent no-op. -/
theorem claim_c10_witness :
    (7 ∉ ([] : List Nat)) ∧
    (((RunRender (.ok (7, ([.object 1, .object 1] : List (DocOutcome Nat)))) [] []).1 =
        [7]) ∧
      (7 ∈ (RunRender (.ok (7, ([.object 1, .object 1] : List (DocOutcome Nat)))) [] []).1) ∧
      (RunRender (.ok (7, ([.object 2] : List (DocOutcome Nat))))
          ((RunRender (.ok (7, ([.object 1, .object 1] : List (DocOutcome Nat)))) [] []).1)
          [] =
        ((RunRender (.ok (7, ([.object 1, .object 1] : List (DocOutcome Nat)))) [] []).1,
          [], none))) :=
  ⟨by decide,
    claim_c10 7 [.object 1, .object 1] [.object 2] [] [] [] (by decide)⟩

end D8Lint
